import Mathlib

/-!
# variant-balancer: node resolution, balancing, connection accounting, cache serving

A shallow embedding of `variantproxy/node.go`, `variantproxy/resolve.go` and
`variantproxy/variantproxy.go`.

Conventions of the embedding:

* a Go `string` is a Lean `String`, a `[]byte` is a `List Nat`;
* a `float64` is a `Float64`: a rational of 53 significant bits, an infinity
  or NaN; conversion from `int` and division round to nearest, ties to even,
  as the hardware does. The exponent is not bounded: a Go `int` has 64 bits,
  so the operands of `Load` lie between `1` and `2^63` in magnitude and their
  quotient between `2^-63` and `2^63`, far inside the range of a `float64`;
* a `*Node` is the record of the fields the code reads; `nil` is `none`;
* a Go `panic` is an explicit outcome carrying the panic value;
* effects on collaborators (connection signals, upstream dispatch, cache
  calls) are recorded in an event trace, in program order;
* `resolve.go` and `variantproxy.go` both declare `ResolveNode` and `balance`;
  they live in the namespaces `ResolveGo` and `VariantproxyGo`.
-/

set_option autoImplicit false

namespace VariantBalancer

/-! ## Data model -/

/-- A `[]byte`. -/
abbrev Bytes := List Nat

/-- The fields of `http.Cookie` the code reads. -/
structure Cookie where
  Name : String
  Value : String
  deriving DecidableEq, Repr

/-- The fields of `variantproxy.Node` that the code reads (`node.go`);
`Host` and `Scheme` stand for `Url.Host` and `Url.Scheme`. -/
structure Node where
  Id : String
  SessionCookieName : String
  Host : String
  Scheme : String
  openConnections : Int
  maxConnections : Int
  deriving DecidableEq, Repr

/-- The fields of `http.Request` that the code reads or writes; `Cookies` is
the parsed content of the `Cookie` request headers, in header order. -/
structure Request where
  RequestURI : String
  Cookies : List Cookie
  Host : String
  URLHost : String
  URLScheme : String
  deriving DecidableEq, Repr

/-- The method `(*http.Request).Cookie` of net/http: the first cookie of the
request with the given name, `none` standing for `ErrNoCookie`. -/
def Request.Cookie (r : Request) (name : String) : Option Cookie :=
  r.Cookies.find? (fun c => c.Name == name)

/-! ## float64 -/

/-- A `float64`: a finite value (held as the rational it stands for), an
infinity, or NaN. Zero carries no sign: the only zero the code divides by is
the conversion of the integer `0`, which is `+0`. -/
inductive Float64 where
  | finite (value : ℚ)
  | posInf
  | negInf
  | nan
  deriving DecidableEq, Repr

namespace Float64

/-- The integer nearest to `x`, the even one of the two when `x` lies halfway. -/
def roundHalfEven (x : ℚ) : ℤ :=
  if x - ⌊x⌋ < 1 / 2 then ⌊x⌋
  else if 1 / 2 < x - ⌊x⌋ then ⌊x⌋ + 1
  else if ⌊x⌋ % 2 = 0 then ⌊x⌋
  else ⌊x⌋ + 1

/-- The `float64` nearest to `q`, ties to even: `q` is cut to 53 significant
bits, the last of them worth `2 ^ (⌊log₂ |q|⌋ - 52)`. -/
def round (q : ℚ) : ℚ :=
  if q = 0 then 0
  else (roundHalfEven (q / (2 : ℚ) ^ (Int.log 2 |q| - 52)) : ℚ) * (2 : ℚ) ^ (Int.log 2 |q| - 52)

/-- The conversion `float64(i)` of an `int`. -/
def ofInt (i : Int) : Float64 :=
  finite (round i)

/-- The quotient `a / b` of two `float64`: a non-zero number over zero is an
infinity, zero over zero is NaN, infinity over infinity is NaN. -/
def div : Float64 → Float64 → Float64
  | finite a, finite b =>
    if b = 0 then
      if 0 < a then posInf else if a < 0 then negInf else nan
    else finite (round (a / b))
  | finite _, posInf => finite 0
  | finite _, negInf => finite 0
  | posInf, finite b => if 0 ≤ b then posInf else negInf
  | negInf, finite b => if 0 ≤ b then negInf else posInf
  | _, _ => nan

/-- The comparison `a < b` of two `float64`; false when either is NaN. -/
def lt : Float64 → Float64 → Bool
  | finite a, finite b => decide (a < b)
  | finite _, posInf => true
  | negInf, finite _ => true
  | negInf, posInf => true
  | _, _ => false

/-- The comparison `a <= b` of two `float64`; false when either is NaN. -/
def le : Float64 → Float64 → Bool
  | finite a, finite b => decide (a ≤ b)
  | finite _, posInf => true
  | negInf, finite _ => true
  | negInf, posInf => true
  | posInf, posInf => true
  | negInf, negInf => true
  | _, _ => false

end Float64

/-! ## Effects -/

/-- An `http.Header`, as the list of its `(key, value)` entries. -/
abbrev Header := List (String × String)

/-- `func (h Header) Get(key string) string` of net/http: the first value
stored under the key, the empty string when there is none. -/
def Header.Get (h : Header) (key : String) : String :=
  match h.find? (fun kv => kv.1 == key) with
  | some kv => kv.2
  | none => ""

/-- The fields of `cache.Item` that the code reads. -/
structure Item where
  Data : Bytes
  Header : Header
  deriving DecidableEq, Repr

/-- What one dispatch to a backend through `httputil.ReverseProxy.ServeHTTP`
hands to the response writer it is given: status code, headers, the cookies of
the `Set-Cookie` headers, and the body bytes; `panicValue` is `some v` when the
dispatch panics with the (non-nil) value `v` after that. -/
structure Upstream where
  statusCode : Nat
  Header : Header
  SetCookies : List Cookie
  bytes : Bytes
  panicValue : Option String

/-- The answers of the external cache (`variantproxy/cache`) to the calls of
`serveFromCacheWithNode`: `Get` for the first lookup, `GetLock` for the attempt
to take the populate lock, `GetAfterWait` for the lookup that follows
`WaitFor`. -/
structure Cache where
  Get : String → Option Item
  GetLock : String → Bool
  GetAfterWait : String → Option Item

/-- The collaborators outside the repository: the backends behind the reverse
proxies, `compress/gzip`, `crypto/sha1` with `encoding/base64`, and the clock
(as the formatted `Expires` date, thirty days from now). -/
structure Env where
  upstream : Node → Request → Upstream
  gzip : Bytes → Bytes
  sha1Base64 : String → String
  expires : String

/-- One observable effect of the proxy code, in program order. -/
inductive Event where
  /-- `n.channelOpenConn <- 1` -/
  | openConn (nodeId : String)
  /-- `n.channelCloseConn <- 1` -/
  | closeConn (nodeId : String)
  /-- `n.ReverseProxy.ServeHTTP(w, req)` -/
  | dispatch (nodeId : String) (req : Request)
  /-- `w.Header().Set(key, value)` -/
  | setHeader (key value : String)
  /-- `http.ServeContent(w, req, name, time.Now(), bytes.NewReader(content))` -/
  | serveContent (name : String) (content : Bytes)
  /-- `io.Copy(w, bytes.NewReader(data))` -/
  | copy (data : Bytes)
  /-- `p.cache.Get(id)` -/
  | cacheGet (id : String)
  /-- `p.cache.GetLock(id)` -/
  | cacheGetLock (id : String)
  /-- `p.cache.WaitFor(id)` -/
  | cacheWaitFor (id : String)
  /-- `p.cache.Save(id, uri, data, header)` -/
  | cacheSave (id uri : String) (data : Bytes) (header : Header)
  /-- `p.cache.Cancel(id)` -/
  | cacheCancel (id : String)
  deriving DecidableEq, Repr

/-- The run of an effectful function: the effects it had, and either the value
it returned or the value it panicked with. -/
structure Run (α : Type) where
  trace : List Event
  result : Except String α

/-! ## node.go -/

/-- `func (n *Node) Load() float64` -/
def Node.Load (n : Node) : Float64 :=
  if n.openConnections > 0 then
    Float64.div (Float64.ofInt n.openConnections) (Float64.ofInt n.maxConnections)
  else
    Float64.finite 0

/-- The goroutine started by `NewNode`, the only writer of `openConnections`
of the node with the given id: one step of its `select` on the signal it
receives. -/
def NewNode.goroutine (nodeId : String) (openConnections : Int) (signal : Event) : Int :=
  match signal with
  | Event.closeConn id => if id = nodeId then openConnections - 1 else openConnections
  | Event.openConn id => if id = nodeId then openConnections + 1 else openConnections
  | _ => openConnections

/-- The node after its goroutine has consumed the signals of a trace. -/
def Node.after (n : Node) (trace : List Event) : Node :=
  { n with openConnections := trace.foldl (NewNode.goroutine n.Id) n.openConnections }

/-- `func (n *Node) closeConn()` -/
def Node.closeConn (n : Node) : List Event :=
  [Event.closeConn n.Id]

/-- `func (n *Node) ServeHTTP(w http.ResponseWriter, incomingRequest *http.Request)`:
the open signal, then the body (dispatch, then `closeConn`, or a panic out of
the dispatch), then the deferred function, whose `recover()` is non-nil exactly
when the body panicked and which then calls `closeConn` and ends the panic. -/
def Node.ServeHTTP (n : Node) (env : Env) (incomingRequest : Request) : Run Unit :=
  let opened := [Event.openConn n.Id]
  let body : Run Unit :=
    match (env.upstream n incomingRequest).panicValue with
    | none => ⟨[Event.dispatch n.Id incomingRequest] ++ n.closeConn, .ok ()⟩
    | some v => ⟨[Event.dispatch n.Id incomingRequest], .error v⟩
  match body.result with
  | .error _ => ⟨opened ++ body.trace ++ n.closeConn, .ok ()⟩
  | .ok _ => ⟨opened ++ body.trace, .ok ()⟩

/-- The events of a trace that come before its first dispatch. -/
def beforeDispatch (trace : List Event) : List Event :=
  trace.takeWhile (fun e => match e with
    | Event.dispatch _ _ => false
    | _ => true)

/-- The events of a trace that come after its first dispatch. -/
def afterDispatch (trace : List Event) : List Event :=
  (trace.dropWhile (fun e => match e with
    | Event.dispatch _ _ => false
    | _ => true)).drop 1

/-- The struct `Proxy`. -/
structure Proxy where
  cache : Cache
  Nodes : List Node

/-- The test of the `if` in both node-resolution loops:
`err == nil && cookie != nil && len(cookie.Value) > 0`. -/
def cookieMatches (req : Request) (node : Node) : Bool :=
  match req.Cookie node.SessionCookieName with
  | some cookie => decide (cookie.Value.length > 0)
  | none => false

/-- The body of the loop of `balance`, the same in both files: keep the node
of strictly smaller load. -/
def balanceStep (minLoadNode node : Node) : Node :=
  if Float64.lt node.Load minLoadNode.Load then node else minLoadNode

/-! ## resolve.go -/

namespace ResolveGo

/-- `func (p *Proxy) balance(nodes []*Node) *Node` of `resolve.go`. -/
def balance (_p : Proxy) (nodes : List Node) : Option Node :=
  match nodes with
  | [] => none
  | first :: rest => some (rest.foldl balanceStep first)

/-- The body of the loop of `ResolveNode` in `resolve.go`, on the pair
`(availableNodes, sessionId)`. -/
def resolveStep (req : Request) (acc : List Node × String) (node : Node) :
    List Node × String :=
  match req.Cookie node.SessionCookieName with
  | some cookie =>
    if cookie.Value.length > 0 then (acc.1 ++ [node], cookie.Value) else acc
  | none => acc

/-- `func (p *Proxy) ResolveNode(incomingRequest *http.Request) (n *Node, sessionId string)`
of `resolve.go`. -/
def ResolveNode (p : Proxy) (incomingRequest : Request) : Option Node × String :=
  let r := p.Nodes.foldl (resolveStep incomingRequest) ([], "")
  let availableNodes := if r.1.length = 0 then p.Nodes else r.1
  (balance p availableNodes, r.2)

end ResolveGo

/-! ## variantproxy.go -/

/-- `strings.HasPrefix` -/
def stringsHasPrefix (s pre : String) : Bool :=
  pre.data.isPrefixOf s.data

/-- `strings.HasSuffix` -/
def stringsHasSuffix (s suffix : String) : Bool :=
  suffix.data.isSuffixOf s.data

/-- `strings.Contains` -/
def stringsContains (s substr : String) : Bool :=
  s.data.tails.any (fun t => substr.data.isPrefixOf t)

namespace VariantproxyGo

/-- `func (p *Proxy) balance(nodes []*Node) *Node` of `variantproxy.go`: the
scan starts from `nodes[0]` and ranges over `p.Nodes[1:]`, which panics when
`p.Nodes` is empty. -/
def balance (p : Proxy) (nodes : List Node) : Except String (Option Node) :=
  match nodes with
  | [] => .ok none
  | first :: _ =>
    match p.Nodes with
    | [] => .error "runtime error: slice bounds out of range"
    | _ :: rest => .ok (some (rest.foldl balanceStep first))

/-- The body of the loop of `ResolveNode` in `variantproxy.go`, on the pair
`(availableNodes, sessionId)`. -/
def resolveStep (req : Request) (acc : List Node × String) (node : Node) :
    List Node × String :=
  match req.Cookie node.SessionCookieName with
  | some cookie =>
    if cookie.Value.length > 0 then (acc.1 ++ [node], cookie.Name ++ cookie.Value) else acc
  | none => acc

/-- `func (p *Proxy) ResolveNode(incomingRequest *http.Request) (n *Node, sessionId string)`
of `variantproxy.go`. -/
def ResolveNode (p : Proxy) (incomingRequest : Request) :
    Except String (Option Node × String) :=
  let r := p.Nodes.foldl (resolveStep incomingRequest) ([], "")
  let availableNodes := if r.1.length = 0 then p.Nodes else r.1
  match balance p availableNodes with
  | .ok n => .ok (n, r.2)
  | .error e => .error e

/-- `func serveFromCache(cached *cache.Item, w http.ResponseWriter, req *http.Request)` -/
def serveFromCache (env : Env) (cached : Option Item) (req : Request) : Run Unit :=
  match cached with
  | none => ⟨[], .error "Cache Item is empty!"⟩
  | some item =>
    if item.Data.length = 0 then
      ⟨[], .error "Cache Item is empty!"⟩
    else
      let encoding := item.Header.Get "Content-Encoding"
      ⟨[Event.setHeader "Content-Type" (item.Header.Get "Content-Type"),
        Event.setHeader "Expires" env.expires]
        ++ (if encoding.length > 0 then [Event.setHeader "Content-Encoding" encoding] else [])
        ++ [Event.serveContent req.RequestURI item.Data], .ok ()⟩

/-- `func createHashFromUri(uri string) string` -/
def createHashFromUri (env : Env) (uri : String) : String :=
  env.sha1Base64 uri

/-- `func compress(data []byte) []byte` -/
def compress (env : Env) (data : Bytes) : Bytes :=
  env.gzip data

/-- `func (p *Proxy) serveFromCacheWithNode(w http.ResponseWriter, req *http.Request, node *Node)` -/
def serveFromCacheWithNode (p : Proxy) (env : Env) (req : Request) (node : Node) : Run Unit :=
  let id := createHashFromUri env req.RequestURI
  match p.cache.Get id with
  | some cached =>
    let served := serveFromCache env (some cached) req
    ⟨[Event.cacheGet id] ++ served.trace, served.result⟩
  | none =>
    if p.cache.GetLock id then
      let req := { req with URLHost := node.Host, URLScheme := node.Scheme }
      let crw := env.upstream node req
      let forwarded := node.ServeHTTP env req
      let data := crw.bytes
      let data :=
        if (stringsHasSuffix req.RequestURI ".js" || stringsHasSuffix req.RequestURI ".css")
            && !stringsContains (crw.Header.Get "Content-Encoding") "gzip" then
          compress env data
        else
          data
      let stored :=
        if crw.statusCode = 304 then
          [Event.cacheCancel id]
        else if data.length ≠ 0 then
          [Event.cacheSave id req.RequestURI data crw.Header]
        else
          [Event.cacheCancel id]
      ⟨[Event.cacheGet id, Event.cacheGetLock id] ++ forwarded.trace ++ stored
        ++ [Event.copy data], forwarded.result⟩
    else
      let served := serveFromCache env (p.cache.GetAfterWait id) req
      ⟨[Event.cacheGet id, Event.cacheGetLock id, Event.cacheWaitFor id, Event.cacheGet id]
        ++ served.trace, served.result⟩

/-- `func (p *Proxy) canBeCached(incomingRequest *http.Request) bool`: the
first case that holds falls through to `return true`. -/
def canBeCached (_p : Proxy) (incomingRequest : Request) : Bool :=
  if stringsHasPrefix incomingRequest.RequestURI "/images" then true
  else if stringsHasSuffix incomingRequest.RequestURI ".txt" then true
  else if stringsHasSuffix incomingRequest.RequestURI ".png" then true
  else if stringsHasSuffix incomingRequest.RequestURI ".css" then true
  else if stringsHasSuffix incomingRequest.RequestURI ".js" then true
  else if stringsHasSuffix incomingRequest.RequestURI ".jpg" then true
  else false

/-- Modelled from the spec: the field `SessionId` of the sniffing response
writer made by `newSnifferResponseWriter` (not under src/) once the response
has gone through it: the value of the response's `Set-Cookie` named after the
node's cookie name, empty when there is none. -/
def snifferSessionId (cookieName : String) (response : Upstream) : String :=
  match response.SetCookies.find? (fun c => c.Name == cookieName) with
  | some c => c.Value
  | none => ""

/-- `func (p *Proxy) Serve(w http.ResponseWriter, incomingRequest *http.Request) string` -/
def Serve (p : Proxy) (env : Env) (incomingRequest : Request) : Run String :=
  match ResolveNode p incomingRequest with
  | .error e => ⟨[], .error e⟩
  | .ok (none, _) => ⟨[], .error "No node to serve response"⟩
  | .ok (some node, sessionId) =>
    let incomingRequest := { incomingRequest with Host := node.Host }
    if canBeCached p incomingRequest then
      let served := serveFromCacheWithNode p env incomingRequest node
      match served.result with
      | .ok _ => ⟨served.trace, .ok sessionId⟩
      | .error e => ⟨served.trace, .error e⟩
    else
      let response := env.upstream node incomingRequest
      match response.panicValue with
      | some v => ⟨[Event.dispatch node.Id incomingRequest], .error v⟩
      | none =>
        let srwSessionId := snifferSessionId node.SessionCookieName response
        if srwSessionId.length > 0 then
          ⟨[Event.dispatch node.Id incomingRequest], .ok srwSessionId⟩
        else
          ⟨[Event.dispatch node.Id incomingRequest], .ok sessionId⟩

end VariantproxyGo

/-! ## Cookie presence as it is worded -/

/-- The request carries the cookie of the node with a non-empty value: some
cookie of the request, at any position, has the name and a non-empty value. -/
def cookiePresent (req : Request) (node : Node) : Prop :=
  ∃ c ∈ req.Cookies, c.Name = node.SessionCookieName ∧ c.Value ≠ ""

instance (req : Request) (node : Node) : Decidable (cookiePresent req node) := by
  unfold cookiePresent
  infer_instance

/-- The cookie `c` is the first cookie of the request with the given name. -/
def firstCookie (req : Request) (name : String) (c : Cookie) : Prop :=
  ∃ pre post, req.Cookies = pre ++ c :: post ∧ (∀ d ∈ pre, d.Name ≠ name) ∧ c.Name = name

/-- The first cookie of the request named after the node has a non-empty value. -/
def firstCookieNonEmpty (req : Request) (node : Node) : Prop :=
  ∃ c, firstCookie req node.SessionCookieName c ∧ c.Value ≠ ""

/-! ## The cacheability rule as it is worded -/

/-- The request URI without its query string: what comes before the first
`?`. This is the path the cacheability rule is worded on; the code does not
compute it. -/
def requestPath (uri : String) : String :=
  String.mk (uri.data.takeWhile (fun c => c != '?'))

/-- The cacheable patterns, on a string: it starts with `/images` or ends with
one of `.txt`, `.png`, `.css`, `.js`, `.jpg`, character by character. -/
def cacheablePattern (s : String) : Prop :=
  "/images".data <+: s.data ∨ ".txt".data <:+ s.data ∨ ".png".data <:+ s.data ∨
    ".css".data <:+ s.data ∨ ".js".data <:+ s.data ∨ ".jpg".data <:+ s.data

instance (s : String) : Decidable (cacheablePattern s) := by
  unfold cacheablePattern
  infer_instance

/-! ## usersessions: weighted variant selection -/

/-- The fields of `config.Variant` that the selection reads: id and share. -/
structure Variant where
  Id : String
  Share : Nat
  deriving DecidableEq, Repr

/-- Modelled from the spec: `GetBalancedRandomVariant` of package
`usersessions` (its code is not under src/, only its test is), as a function of
the uniform draw it makes from the `Σ shares` values `0, 1, ..`: the weighted
choice that walks the variants in order and selects the one whose share
interval holds the draw. -/
def GetBalancedRandomVariant : List Variant → Nat → Option Variant
  | [], _ => none
  | v :: rest, draw =>
    if draw < v.Share then some v else GetBalancedRandomVariant rest (draw - v.Share)

/-- The sum of all shares. -/
def totalShare (variants : List Variant) : Nat :=
  (variants.map (fun v => v.Share)).sum

/-- The number of draws, among the `Σ shares` equally likely ones, on which
the variant `v` is selected. -/
def drawsSelecting (variants : List Variant) (v : Variant) : Nat :=
  (List.range (totalShare variants)).countP
    (fun draw => GetBalancedRandomVariant variants draw = some v)

/-- The variants of `TestUserSessions`: A with share 90, B with share 10. -/
def testVariants : List Variant :=
  [{ Id := "A", Share := 90 }, { Id := "B", Share := 10 }]

/-! ## Concrete configurations -/

/-- A cache that holds nothing and grants every populate lock. -/
def emptyCache : Cache :=
  { Get := fun _ => none, GetLock := fun _ => true, GetAfterWait := fun _ => none }

/-- A node with five open connections out of a hundred. -/
def busyNode : Node :=
  { Id := "a-1", SessionCookieName := "cookieA", Host := "127.0.0.1:8001", Scheme := "http",
    openConnections := 5, maxConnections := 100 }

/-- A node at rest, with a cookie name of its own. -/
def idleNode : Node :=
  { Id := "a-2", SessionCookieName := "cookieB", Host := "127.0.0.1:8002", Scheme := "http",
    openConnections := 0, maxConnections := 100 }

/-- A proxy over `busyNode` and `idleNode`, in that order. -/
def twoNodeProxy : Proxy :=
  { cache := emptyCache, Nodes := [busyNode, idleNode] }

/-- A request for `/foo` that carries the session cookie of `busyNode` only. -/
def stickyRequest : Request :=
  { RequestURI := "/foo", Cookies := [{ Name := "cookieA", Value := "sess-a-11" }],
    Host := "127.0.0.1", URLHost := "127.0.0.1", URLScheme := "http" }

/-- A node with one open connection out of `2^53`. -/
def tieFirstNode : Node :=
  { Id := "g1", SessionCookieName := "testCookie", Host := "127.0.0.1:8001", Scheme := "http",
    openConnections := 1, maxConnections := 9007199254740992 }

/-- A node with one open connection out of `2^53 + 1`, a capacity that is not
a `float64` and converts to `2^53`. -/
def tieSecondNode : Node :=
  { Id := "g2", SessionCookieName := "testCookie", Host := "127.0.0.1:8002", Scheme := "http",
    openConnections := 1, maxConnections := 9007199254740993 }

/-- A request for `/foo` whose `Cookie` header is `cookieA=; cookieA=second`:
the cookie of `busyNode` twice, first empty, then with a value. -/
def duplicateCookieRequest : Request :=
  { RequestURI := "/foo",
    Cookies := [{ Name := "cookieA", Value := "" }, { Name := "cookieA", Value := "second" }],
    Host := "127.0.0.1", URLHost := "127.0.0.1", URLScheme := "http" }

/-- The first node of variant A in `TestUserSessions`, at rest. -/
def testNodeA1 : Node :=
  { Id := "a-1", SessionCookieName := "testCookie", Host := "127.0.0.1:8001", Scheme := "http",
    openConnections := 0, maxConnections := 100 }

/-- The second node of variant A in `TestUserSessions`, at rest. -/
def testNodeA2 : Node :=
  { Id := "a-2", SessionCookieName := "testCookie", Host := "127.0.0.1:8002", Scheme := "http",
    openConnections := 0, maxConnections := 100 }

/-- The proxy of variant A in `TestUserSessions`. -/
def testProxy : Proxy :=
  { cache := emptyCache, Nodes := [testNodeA1, testNodeA2] }

/-- The backend of `makeNode` in `usersessions_test.go`: it sets the session
cookie when the request carries none, and answers status 200 with a body. The
stand-in for gzip puts the ten-byte gzip header and the eight-byte trailer
around the data. -/
def testEnv : Env :=
  { upstream := fun n r =>
      { statusCode := 200,
        Header := [],
        SetCookies :=
          if (r.Cookie "testCookie").isNone then
            [{ Name := "testCookie", Value := "sess-" ++ n.Id ++ "1" }]
          else [],
        bytes := [104, 101, 108, 108, 111],
        panicValue := none },
    gzip := fun data => [31, 139, 8, 0, 0, 0, 0, 0, 0, 255] ++ data ++ [0, 0, 0, 0, 0, 0, 0, 0],
    sha1Base64 := fun uri => uri,
    expires := "Fri, 04 Dec 2026 00:00:00 GMT" }

/-- The second request of a client of `TestUserSessions`: `/foo`, with the
session cookie it was given. -/
def testRequestFoo : Request :=
  { RequestURI := "/foo", Cookies := [{ Name := "testCookie", Value := "sess-a-11" }],
    Host := "127.0.0.1", URLHost := "127.0.0.1", URLScheme := "http" }

/-- The first request of a client of `TestUserSessions`: `/`, without a cookie. -/
def testRequestRoot : Request :=
  { RequestURI := "/", Cookies := [],
    Host := "127.0.0.1", URLHost := "127.0.0.1", URLScheme := "http" }

/-- A request for a stylesheet with a version in the query string. -/
def versionedCssRequest : Request :=
  { RequestURI := "/style.css?v=1", Cookies := [],
    Host := "127.0.0.1", URLHost := "127.0.0.1", URLScheme := "http" }

/-- A request for a script. -/
def scriptRequest : Request :=
  { RequestURI := "/app.js", Cookies := [],
    Host := "127.0.0.1", URLHost := "127.0.0.1", URLScheme := "http" }

/-- A backend that answers every request with status 200 and an empty body. -/
def emptyBodyEnv : Env :=
  { testEnv with
    upstream := fun _ _ =>
      { statusCode := 200, Header := [], SetCookies := [], bytes := [], panicValue := none } }

/-! ## Theorems -/

/-- A number that is at least one rounds to an integer that is at least one. -/
theorem Float64.one_le_roundHalfEven (x : ℚ) (hx : 1 ≤ x) : 1 ≤ Float64.roundHalfEven x := by
  have hf : 1 ≤ ⌊x⌋ := Int.le_floor.2 (by exact_mod_cast hx)
  unfold Float64.roundHalfEven
  split_ifs <;> omega

/-- Rounding to `float64` keeps a positive number positive. -/
theorem Float64.round_pos (q : ℚ) (hq : 0 < q) : 0 < Float64.round q := by
  have hne : q ≠ 0 := ne_of_gt hq
  have hulp : (0 : ℚ) < (2 : ℚ) ^ (Int.log 2 |q| - 52) := zpow_pos (by norm_num) _
  have hle : (2 : ℚ) ^ (Int.log 2 |q| - 52) ≤ q := by
    have h1 : ((2 : ℕ) : ℚ) ^ Int.log 2 |q| ≤ |q| :=
      Int.zpow_log_le_self (by norm_num) (abs_pos.2 hne)
    have h2 : (2 : ℚ) ^ (Int.log 2 |q| - 52) ≤ (2 : ℚ) ^ Int.log 2 |q| :=
      zpow_le_zpow_right₀ (by norm_num) (by omega)
    rw [abs_of_pos hq] at h1 h2 ⊢
    exact le_trans h2 (by exact_mod_cast h1)
  have hx : 1 ≤ q / (2 : ℚ) ^ (Int.log 2 |q| - 52) := (one_le_div hulp).2 hle
  have hr := Float64.one_le_roundHalfEven _ hx
  unfold Float64.round
  rw [if_neg hne]
  have hpos : (0 : ℚ) < (Float64.roundHalfEven (q / (2 : ℚ) ^ (Int.log 2 |q| - 52)) : ℚ) := by
    exact_mod_cast (by omega : 0 < Float64.roundHalfEven (q / (2 : ℚ) ^ (Int.log 2 |q| - 52)))
  exact mul_pos hpos hulp

/-- With a positive `maxConnections` the divisor of `Load` is not zero, and
the load is the finite `float64` quotient of the two converted counters when
connections are open, and zero otherwise. -/
theorem Node.Load_finite (n : Node) (hmax : 0 < n.maxConnections) :
    n.Load = Float64.finite
      (if 0 < n.openConnections then
        Float64.round (Float64.round n.openConnections / Float64.round n.maxConnections)
      else 0) := by
  have hb : Float64.round (n.maxConnections : ℚ) ≠ 0 :=
    ne_of_gt (Float64.round_pos _ (by exact_mod_cast hmax))
  unfold Node.Load
  by_cases h : 0 < n.openConnections
  · simp [h, Float64.div, Float64.ofInt, hb]
  · simp [h]

/-- Among loads of nodes with positive `maxConnections`, `<` is transitive. -/
theorem Node.load_lt_trans (a b c : Node) (ha : 0 < a.maxConnections)
    (hb : 0 < b.maxConnections) (hc : 0 < c.maxConnections)
    (hab : Float64.lt a.Load b.Load = true) (hbc : Float64.lt b.Load c.Load = true) :
    Float64.lt a.Load c.Load = true := by
  rw [Node.Load_finite a ha, Node.Load_finite b hb] at hab
  rw [Node.Load_finite b hb, Node.Load_finite c hc] at hbc
  rw [Node.Load_finite a ha, Node.Load_finite c hc]
  simp only [Float64.lt, decide_eq_true_eq] at hab hbc ⊢
  exact lt_trans hab hbc

/-- Among loads of nodes with positive `maxConnections`, `a < b <= c` gives
`a < c`. -/
theorem Node.load_lt_of_lt_of_le (a b c : Node) (ha : 0 < a.maxConnections)
    (hb : 0 < b.maxConnections) (hc : 0 < c.maxConnections)
    (hab : Float64.lt a.Load b.Load = true) (hbc : Float64.le b.Load c.Load = true) :
    Float64.lt a.Load c.Load = true := by
  rw [Node.Load_finite a ha, Node.Load_finite b hb] at hab
  rw [Node.Load_finite b hb, Node.Load_finite c hc] at hbc
  rw [Node.Load_finite a ha, Node.Load_finite c hc]
  simp only [Float64.lt, Float64.le, decide_eq_true_eq] at hab hbc ⊢
  exact lt_of_lt_of_le hab hbc

/-- Among loads of nodes with positive `maxConnections`, when `a < b` is false
then `b <= a`. -/
theorem Node.load_le_of_not_lt (a b : Node) (ha : 0 < a.maxConnections)
    (hb : 0 < b.maxConnections) (hab : ¬ Float64.lt a.Load b.Load = true) :
    Float64.le b.Load a.Load = true := by
  rw [Node.Load_finite a ha, Node.Load_finite b hb] at hab
  rw [Node.Load_finite a ha, Node.Load_finite b hb]
  simp only [Float64.lt, Float64.le, decide_eq_true_eq] at hab ⊢
  exact not_lt.1 hab

/-- Among loads of nodes with positive `maxConnections`, `a < b` gives `a <= b`. -/
theorem Node.load_le_of_lt (a b : Node) (ha : 0 < a.maxConnections)
    (hb : 0 < b.maxConnections) (hab : Float64.lt a.Load b.Load = true) :
    Float64.le a.Load b.Load = true := by
  rw [Node.Load_finite a ha, Node.Load_finite b hb] at hab ⊢
  simp only [Float64.lt, Float64.le, decide_eq_true_eq] at hab ⊢
  exact le_of_lt hab

/-- The load of a node with positive `maxConnections` is `<=` itself. -/
theorem Node.load_le_refl (a : Node) (ha : 0 < a.maxConnections) :
    Float64.le a.Load a.Load = true := by
  rw [Node.Load_finite a ha]
  simp [Float64.le]

/-- Invariant of the scan of `balance` over nodes with positive
`maxConnections`: with `pre ++ m :: mid` already visited, `m` strictly below
everything in `pre` and at most everything in `mid`, the fold ends on a node
that splits the whole list the same way. -/
theorem ResolveGo.scan_split (rest : List Node) :
    ∀ (pre : List Node) (m : Node) (mid : List Node),
      (∀ x ∈ pre, 0 < x.maxConnections) → 0 < m.maxConnections →
      (∀ x ∈ mid, 0 < x.maxConnections) → (∀ x ∈ rest, 0 < x.maxConnections) →
      (∀ x ∈ pre, Float64.lt m.Load x.Load = true) →
      (∀ x ∈ mid, Float64.le m.Load x.Load = true) →
      ∃ pre2 post, pre ++ m :: (mid ++ rest) = pre2 ++ rest.foldl balanceStep m :: post ∧
        (∀ x ∈ pre2, Float64.lt (rest.foldl balanceStep m).Load x.Load = true) ∧
        (∀ x ∈ post, Float64.le (rest.foldl balanceStep m).Load x.Load = true) := by
  induction rest with
  | nil =>
    intro pre m mid _ _ _ _ hpre hmid
    exact ⟨pre, mid, by simp, hpre, hmid⟩
  | cons x rest ih =>
    intro pre m mid hp hm hmi hr hpre hmid
    have hx : 0 < x.maxConnections := hr x (List.mem_cons_self _ _)
    have hrest : ∀ y ∈ rest, 0 < y.maxConnections :=
      fun y hy => hr y (List.mem_cons_of_mem _ hy)
    simp only [List.foldl_cons]
    by_cases hlt : Float64.lt x.Load m.Load = true
    · have hstep : balanceStep m x = x := by simp [balanceStep, hlt]
      rw [hstep]
      have hvisited : ∀ y ∈ pre ++ m :: mid, 0 < y.maxConnections := by
        intro y hy
        rcases List.mem_append.1 hy with hy | hy
        · exact hp y hy
        · rcases List.mem_cons.1 hy with hy | hy
          · subst hy; exact hm
          · exact hmi y hy
      obtain ⟨pre2, post, heq, h1, h2⟩ := ih (pre ++ m :: mid) x [] hvisited hx
        (by simp) hrest (by
          intro y hy
          rcases List.mem_append.1 hy with hy | hy
          · exact Node.load_lt_trans x m y hx hm (hp y hy) hlt (hpre y hy)
          · rcases List.mem_cons.1 hy with hy | hy
            · subst hy; exact hlt
            · exact Node.load_lt_of_lt_of_le x m y hx hm (hmi y hy) hlt (hmid y hy))
        (by simp)
      refine ⟨pre2, post, ?_, h1, h2⟩
      rw [← heq]; simp
    · have hstep : balanceStep m x = m := by simp [balanceStep, hlt]
      rw [hstep]
      obtain ⟨pre2, post, heq, h1, h2⟩ := ih pre m (mid ++ [x]) hp hm (by
          intro y hy
          rcases List.mem_append.1 hy with hy | hy
          · exact hmi y hy
          · simp at hy; subst hy; exact hx) hrest hpre (by
          intro y hy
          rcases List.mem_append.1 hy with hy | hy
          · exact hmid y hy
          · simp at hy; subst hy; exact Node.load_le_of_not_lt y m hx hm hlt)
      refine ⟨pre2, post, ?_, h1, h2⟩
      rw [← heq]; simp

/-- C1: for a non-empty list of nodes with positive `maxConnections`,
`balance` of `resolve.go` returns a node of the list whose load is at most the
load of every node of the list, and every node before it in the list has a
strictly greater load; for the empty list it returns no node. The load of each
node is the `float64` quotient of `openConnections` by `maxConnections` when
`openConnections > 0`, and zero otherwise, and loads are compared as `float64`. -/
theorem ResolveGo.balance_first_least_loaded (p : Proxy) (nodes : List Node)
    (hmax : ∀ n ∈ nodes, 0 < n.maxConnections) :
    (nodes = [] → ResolveGo.balance p nodes = none) ∧
    (nodes ≠ [] → ∃ pre r post, nodes = pre ++ r :: post ∧
      ResolveGo.balance p nodes = some r ∧
      (∀ m ∈ nodes, Float64.le r.Load m.Load = true) ∧
      (∀ m ∈ pre, Float64.lt r.Load m.Load = true)) ∧
    (∀ m ∈ nodes, m.Load = Float64.finite
      (if 0 < m.openConnections then
        Float64.round (Float64.round m.openConnections / Float64.round m.maxConnections)
      else 0)) := by
  refine ⟨?_, ?_, fun m hm => Node.Load_finite m (hmax m hm)⟩
  · intro h; subst h; rfl
  · intro hne
    cases nodes with
    | nil => exact absurd rfl hne
    | cons first rest =>
      have hfirst : 0 < first.maxConnections := hmax first (List.mem_cons_self _ _)
      have hrest : ∀ y ∈ rest, 0 < y.maxConnections :=
        fun y hy => hmax y (List.mem_cons_of_mem _ hy)
      obtain ⟨pre2, post, heq, h1, h2⟩ :=
        ResolveGo.scan_split rest [] first [] (by simp) hfirst (by simp) hrest
          (by simp) (by simp)
      simp only [List.nil_append] at heq
      have hmem : rest.foldl balanceStep first ∈ first :: rest := by
        rw [heq]; simp
      have hr : 0 < (rest.foldl balanceStep first).maxConnections := hmax _ hmem
      refine ⟨pre2, _, post, heq, rfl, ?_, h1⟩
      intro m hm
      have hmpos := hmax m hm
      rw [heq] at hm
      rcases List.mem_append.1 hm with hm | hm
      · exact Node.load_le_of_lt _ m hr hmpos (h1 m hm)
      · rcases List.mem_cons.1 hm with hm | hm
        · subst hm; exact Node.load_le_refl _ hr
        · exact h2 m hm

/-- C1, at a concrete input: over `[busyNode, idleNode]` the node returned is
preceded only by nodes of strictly greater load. -/
theorem ResolveGo.balance_first_least_loaded_witness :
    (∀ n ∈ [busyNode, idleNode], 0 < n.maxConnections) ∧
    ([busyNode, idleNode] ≠ [] → ∃ pre r post, [busyNode, idleNode] = pre ++ r :: post ∧
      ResolveGo.balance twoNodeProxy [busyNode, idleNode] = some r ∧
      (∀ m ∈ [busyNode, idleNode], Float64.le r.Load m.Load = true) ∧
      (∀ m ∈ pre, Float64.lt r.Load m.Load = true)) :=
  ⟨by decide,
   (ResolveGo.balance_first_least_loaded twoNodeProxy [busyNode, idleNode] (by decide)).2.1⟩

/-- The load of a node at rest is below the load of a node with open
connections: zero against a positive `float64`. -/
theorem Node.load_idle_lt_busy : Float64.lt idleNode.Load busyNode.Load = true := by
  rw [Node.Load_finite idleNode (by decide), Node.Load_finite busyNode (by decide)]
  have h5 : 0 < Float64.round ((busyNode.openConnections : ℤ) : ℚ) :=
    Float64.round_pos _ (by simp [busyNode])
  have h100 : 0 < Float64.round ((busyNode.maxConnections : ℤ) : ℚ) :=
    Float64.round_pos _ (by simp [busyNode])
  have hq := Float64.round_pos _ (div_pos h5 h100)
  have hopen : (0 : ℤ) < busyNode.openConnections := by decide
  have hclosed : ¬ (0 : ℤ) < idleNode.openConnections := by decide
  simp only [Float64.lt, if_pos hopen, if_neg hclosed, decide_eq_true_eq]
  exact hq

/-- Two nodes at rest have the same load, zero: neither is below the other. -/
theorem Node.load_rest_not_lt : Float64.lt testNodeA2.Load testNodeA1.Load = false := by
  simp [Node.Load, testNodeA1, testNodeA2, Float64.lt]

/-- The exponent of a positive number lying between `2^e` and `2^(e+1)`. -/
theorem Float64.log_eq (q : ℚ) (e : ℤ) (hq : 0 < q) (hlo : (2 : ℚ) ^ e ≤ q)
    (hhi : q < (2 : ℚ) ^ (e + 1)) : Int.log 2 |q| = e := by
  rw [abs_of_pos hq]
  have h1 : e ≤ Int.log 2 q :=
    (Int.zpow_le_iff_le_log (by norm_num) hq).1 (by exact_mod_cast hlo)
  have h2 : Int.log 2 q < e + 1 :=
    (Int.lt_zpow_iff_log_lt (by norm_num) hq).1 (by exact_mod_cast hhi)
  omega

/-- Rounding a positive number of known exponent and known rounded
significand. -/
theorem Float64.round_eq (q : ℚ) (e k : ℤ) (hq : 0 < q) (hlo : (2 : ℚ) ^ e ≤ q)
    (hhi : q < (2 : ℚ) ^ (e + 1))
    (hk : Float64.roundHalfEven (q / (2 : ℚ) ^ (e - 52)) = k) :
    Float64.round q = (k : ℚ) * (2 : ℚ) ^ (e - 52) := by
  unfold Float64.round
  rw [if_neg (ne_of_gt hq), Float64.log_eq q e hq hlo hhi, hk]

/-- An integer rounds to itself. -/
theorem Float64.roundHalfEven_int (k : ℤ) : Float64.roundHalfEven (k : ℚ) = k := by
  simp [Float64.roundHalfEven]

/-- An even integer and a half rounds down to the even integer. -/
theorem Float64.roundHalfEven_even_half (k : ℤ) (hk : k % 2 = 0) :
    Float64.roundHalfEven ((k : ℚ) + 1 / 2) = k := by
  have hf : ⌊(k : ℚ) + 1 / 2⌋ = k := by
    rw [Int.floor_eq_iff]; constructor <;> norm_num
  unfold Float64.roundHalfEven
  rw [hf]
  norm_num [hk]

/-- The capacity `2^53` is a `float64`. -/
theorem Float64.round_two_pow_53 : Float64.round (9007199254740992 : ℚ) = 9007199254740992 := by
  rw [Float64.round_eq _ 53 4503599627370496 (by norm_num) (by norm_num) (by norm_num)]
  · norm_num
  · have h : (9007199254740992 : ℚ) / 2 ^ ((53 : ℤ) - 52) = ((4503599627370496 : ℤ) : ℚ) := by
      norm_num
    rw [h, Float64.roundHalfEven_int]

/-- The capacity `2^53 + 1` lies halfway between two `float64` and converts to
the even one, `2^53`. -/
theorem Float64.round_two_pow_53_succ :
    Float64.round (9007199254740993 : ℚ) = 9007199254740992 := by
  rw [Float64.round_eq _ 53 4503599627370496 (by norm_num) (by norm_num) (by norm_num)]
  · norm_num
  · have h : (9007199254740993 : ℚ) / 2 ^ ((53 : ℤ) - 52)
        = ((4503599627370496 : ℤ) : ℚ) + 1 / 2 := by norm_num
    rw [h, Float64.roundHalfEven_even_half _ (by decide)]

/-- Loads that differ as exact quotients and agree as `float64`: one open
connection out of `2^53` and out of `2^53 + 1`. The exact quotient of the
second node is the smaller one, the two `float64` loads are equal, and
`balance` keeps the first node, as the comparison of the code does. -/
theorem ResolveGo.balance_keeps_first_on_equal_float64 (p : Proxy) :
    (tieSecondNode.openConnections : ℚ) / tieSecondNode.maxConnections
      < (tieFirstNode.openConnections : ℚ) / tieFirstNode.maxConnections ∧
    tieSecondNode.Load = tieFirstNode.Load ∧
    ResolveGo.balance p [tieFirstNode, tieSecondNode] = some tieFirstNode := by
  have h1 : ((tieFirstNode.maxConnections : ℤ) : ℚ) = 9007199254740992 := by
    simp [tieFirstNode]
  have h2 : ((tieSecondNode.maxConnections : ℤ) : ℚ) = 9007199254740993 := by
    simp [tieSecondNode]
  have hopen : tieSecondNode.openConnections = tieFirstNode.openConnections := rfl
  have hload : tieSecondNode.Load = tieFirstNode.Load := by
    rw [Node.Load_finite tieSecondNode (by decide), Node.Load_finite tieFirstNode (by decide),
      h1, h2, Float64.round_two_pow_53, Float64.round_two_pow_53_succ, hopen]
  refine ⟨?_, hload, ?_⟩
  · simp only [h1, h2]
    simp only [tieFirstNode, tieSecondNode]
    norm_num
  · have hnot : Float64.lt tieSecondNode.Load tieFirstNode.Load = false := by
      rw [hload, Node.Load_finite tieFirstNode (by decide)]
      simp [Float64.lt]
    simp [ResolveGo.balance, balanceStep, hnot]

/-- C2: `ResolveNode` of `variantproxy.go` on a request that carries the cookie
of `busyNode` only returns `idleNode`, a node whose cookie the request does not
carry: its `balance` starts from the first matching node and then scans
`p.Nodes[1:]` instead of the rest of the matching nodes. `ResolveNode` of
`resolve.go` returns the matching node on the same input. -/
theorem VariantproxyGo.ResolveNode_returns_non_matching_node :
    VariantproxyGo.ResolveNode twoNodeProxy stickyRequest
      = .ok (some idleNode, "cookieAsess-a-11") ∧
    cookieMatches stickyRequest busyNode = true ∧
    cookieMatches stickyRequest idleNode = false ∧
    ResolveGo.ResolveNode twoNodeProxy stickyRequest = (some busyNode, "sess-a-11") := by
  have hload : Float64.lt idleNode.Load busyNode.Load = true := Node.load_idle_lt_busy
  refine ⟨?_, by decide, by decide, ?_⟩
  · have hfold : twoNodeProxy.Nodes.foldl (VariantproxyGo.resolveStep stickyRequest) ([], "")
        = ([busyNode], "cookieAsess-a-11") := by decide
    simp only [VariantproxyGo.ResolveNode, hfold]
    simp [VariantproxyGo.balance, twoNodeProxy, balanceStep, hload]
  · have hfold : twoNodeProxy.Nodes.foldl (ResolveGo.resolveStep stickyRequest) ([], "")
        = ([busyNode], "sess-a-11") := by decide
    simp only [ResolveGo.ResolveNode, hfold]
    simp [ResolveGo.balance]

/-- What the loop of `ResolveNode` in `resolve.go` computes from an
accumulator: the matching nodes are appended in order; without a match the
session id is left as it was; with a match it is the value of the cookie named
after a matching node. -/
theorem ResolveGo.resolve_fold (req : Request) (nodes : List Node) :
    ∀ acc : List Node × String,
      (nodes.foldl (ResolveGo.resolveStep req) acc).1
        = acc.1 ++ nodes.filter (cookieMatches req) ∧
      ((∀ n ∈ nodes, cookieMatches req n = false) →
        (nodes.foldl (ResolveGo.resolveStep req) acc).2 = acc.2) ∧
      ((∃ n ∈ nodes, cookieMatches req n = true) →
        ∃ n ∈ nodes, ∃ c, req.Cookie n.SessionCookieName = some c ∧ c.Value.length > 0 ∧
          (nodes.foldl (ResolveGo.resolveStep req) acc).2 = c.Value) := by
  induction nodes with
  | nil => intro acc; simp
  | cons x rest ih =>
    intro acc
    simp only [List.foldl_cons]
    obtain ⟨h1, h2, h3⟩ := ih (ResolveGo.resolveStep req acc x)
    by_cases hx : cookieMatches req x = true
    · -- the head matches
      obtain ⟨c, hc, hlen⟩ : ∃ c, req.Cookie x.SessionCookieName = some c ∧ c.Value.length > 0 := by
        unfold cookieMatches at hx
        cases hcookie : req.Cookie x.SessionCookieName with
        | none => simp [hcookie] at hx
        | some c => exact ⟨c, rfl, by simpa [hcookie] using hx⟩
      have hstep : ResolveGo.resolveStep req acc x = (acc.1 ++ [x], c.Value) := by
        simp [ResolveGo.resolveStep, hc, hlen]
      refine ⟨?_, ?_, ?_⟩
      · rw [h1, hstep]; simp [List.filter_cons, hx]
      · intro hnone
        have := hnone x (List.mem_cons_self _ _)
        rw [this] at hx; exact absurd hx (by decide)
      · intro _
        by_cases hrest : ∃ n ∈ rest, cookieMatches req n = true
        · obtain ⟨n, hn, c2, hc2, hlen2, heq⟩ := h3 hrest
          exact ⟨n, List.mem_cons_of_mem _ hn, c2, hc2, hlen2, heq⟩
        · have hnone : ∀ n ∈ rest, cookieMatches req n = false := by
            intro n hn
            cases hm : cookieMatches req n with
            | false => rfl
            | true => exact absurd ⟨n, hn, hm⟩ hrest
          refine ⟨x, List.mem_cons_self _ _, c, hc, hlen, ?_⟩
          rw [h2 hnone, hstep]
    · -- the head does not match
      have hxf : cookieMatches req x = false := by
        cases hm : cookieMatches req x with
        | false => rfl
        | true => exact absurd hm hx
      have hstep : ResolveGo.resolveStep req acc x = acc := by
        unfold cookieMatches at hxf
        unfold ResolveGo.resolveStep
        cases hcookie : req.Cookie x.SessionCookieName with
        | none => rfl
        | some c =>
          have : ¬ c.Value.length > 0 := by simpa [hcookie] using hxf
          simp [this]
      rw [hstep] at h1 h2 h3
      rw [hstep]
      refine ⟨?_, ?_, ?_⟩
      · rw [h1]; simp [List.filter_cons, hxf]
      · intro hnone
        exact h2 (fun n hn => hnone n (List.mem_cons_of_mem _ hn))
      · rintro ⟨n, hn, hm⟩
        rcases List.mem_cons.1 hn with hn | hn
        · subst hn; rw [hxf] at hm; exact absurd hm (by decide)
        · obtain ⟨n2, hn2, c2, hc2, hlen2, heq⟩ := h3 ⟨n, hn, hm⟩
          exact ⟨n2, List.mem_cons_of_mem _ hn2, c2, hc2, hlen2, heq⟩

/-- The session id of `ResolveNode` in `resolve.go`, in terms of the test of
its loop: it is empty exactly when the test fails on every configured node,
the node is then `balance` over all configured nodes, and otherwise the session
id is the value of the cookie that `Request.Cookie` returns for a matching
node. -/
theorem ResolveGo.ResolveNode_sessionId_of_loop_test (p : Proxy) (req : Request) :
    ((ResolveGo.ResolveNode p req).2 = "" ↔ ∀ n ∈ p.Nodes, cookieMatches req n = false) ∧
    ((∀ n ∈ p.Nodes, cookieMatches req n = false) →
      (ResolveGo.ResolveNode p req).1 = ResolveGo.balance p p.Nodes) ∧
    ((∃ n ∈ p.Nodes, cookieMatches req n = true) →
      ∃ n ∈ p.Nodes, ∃ c, cookieMatches req n = true ∧
        req.Cookie n.SessionCookieName = some c ∧ c.Name = n.SessionCookieName ∧
        c.Value ≠ "" ∧ (ResolveGo.ResolveNode p req).2 = c.Value) := by
  obtain ⟨h1, h2, h3⟩ := ResolveGo.resolve_fold req p.Nodes ([], "")
  have hsome : (∃ n ∈ p.Nodes, cookieMatches req n = true) →
      ∃ n ∈ p.Nodes, ∃ c, cookieMatches req n = true ∧
        req.Cookie n.SessionCookieName = some c ∧ c.Name = n.SessionCookieName ∧
        c.Value ≠ "" ∧ (ResolveGo.ResolveNode p req).2 = c.Value := by
    intro hex
    obtain ⟨n, hn, c, hc, hlen, heq⟩ := h3 hex
    refine ⟨n, hn, c, ?_, hc, ?_, ?_, heq⟩
    · simp [cookieMatches, hc, hlen]
    · have := List.find?_some hc
      simpa using this
    · intro hempty
      rw [hempty] at hlen
      exact absurd hlen (by decide)
  refine ⟨⟨?_, ?_⟩, ?_, hsome⟩
  · intro hempty n hn
    cases hm : cookieMatches req n with
    | false => rfl
    | true =>
      obtain ⟨n2, _, c, _, _, _, hne, heq⟩ := hsome ⟨n, hn, hm⟩
      rw [hempty] at heq
      exact absurd heq.symm hne
  · intro hnone
    exact h2 hnone
  · intro hnone
    have hfilter : p.Nodes.filter (cookieMatches req) = [] := by
      rw [List.filter_eq_nil_iff]
      intro n hn
      rw [hnone n hn]; decide
    have hnil : (p.Nodes.foldl (ResolveGo.resolveStep req) ([], "")).1 = [] := by
      rw [h1, hfilter]; rfl
    simp [ResolveGo.ResolveNode, hnil]

/-- A string has positive length exactly when it is not the empty string. -/
theorem String.length_pos_iff_ne_empty (s : String) : s.length > 0 ↔ s ≠ "" := by
  constructor
  · intro h he
    rw [he] at h
    exact absurd h (by decide)
  · intro h
    rcases s with ⟨l⟩
    cases l with
    | nil => exact absurd rfl h
    | cons c l => simp [String.length]

/-- The test of the resolution loop holds for a node exactly when the first
cookie of the request named after the node has a non-empty value. -/
theorem cookieMatches_iff_firstCookieNonEmpty (req : Request) (node : Node) :
    cookieMatches req node = true ↔ firstCookieNonEmpty req node := by
  unfold cookieMatches firstCookieNonEmpty firstCookie Request.Cookie
  constructor
  · intro h
    cases hfind : req.Cookies.find? (fun c => c.Name == node.SessionCookieName) with
    | none => simp [hfind] at h
    | some c =>
      rw [hfind] at h
      obtain ⟨hc, pre, post, hsplit, hpre⟩ := List.find?_eq_some.1 hfind
      refine ⟨c, ⟨pre, post, hsplit, ?_, by simpa using hc⟩, ?_⟩
      · intro d hd
        simpa using hpre d hd
      · exact (String.length_pos_iff_ne_empty _).1 (by simpa using h)
  · rintro ⟨c, ⟨pre, post, hsplit, hpre, hname⟩, hvalue⟩
    have hfind : req.Cookies.find? (fun c => c.Name == node.SessionCookieName) = some c := by
      rw [List.find?_eq_some]
      refine ⟨by simpa using hname, pre, post, hsplit, ?_⟩
      intro d hd
      simpa using hpre d hd
    rw [hfind]
    simpa using (String.length_pos_iff_ne_empty _).2 hvalue

/-- When no two cookies of the request share a name, a cookie of a node is
present with a non-empty value exactly when the first cookie of that name has
a non-empty value. -/
theorem cookiePresent_iff_firstCookieNonEmpty (req : Request) (node : Node)
    (hnames : (req.Cookies.map (fun c => c.Name)).Nodup) :
    cookiePresent req node ↔ firstCookieNonEmpty req node := by
  unfold cookiePresent firstCookieNonEmpty firstCookie
  constructor
  · rintro ⟨c, hc, hname, hvalue⟩
    obtain ⟨pre, post, hsplit⟩ := List.append_of_mem hc
    refine ⟨c, ⟨pre, post, hsplit, ?_, hname⟩, hvalue⟩
    intro d hd hdname
    rw [hsplit, List.map_append, List.map_cons] at hnames
    have hdisj := (List.nodup_append.1 hnames).2.2
    exact hdisj (List.mem_map.2 ⟨d, hd, rfl⟩)
      (by rw [hdname, ← hname]; exact List.mem_cons_self _ _)
  · rintro ⟨c, ⟨pre, post, hsplit, -, hname⟩, hvalue⟩
    exact ⟨c, by rw [hsplit]; simp, hname, hvalue⟩

/-- C3, as stated, fails: on a request whose `Cookie` header is
`cookieA=; cookieA=second` the cookie of `busyNode` is present with a non-empty
value, and `ResolveNode` of `resolve.go` returns an empty session id:
`Request.Cookie` returns the first cookie of the name, whose value is empty. -/
theorem ResolveGo.ResolveNode_ignores_later_duplicate_cookie :
    ¬ ((ResolveGo.ResolveNode twoNodeProxy duplicateCookieRequest).2 = ""
        ↔ ∀ n ∈ twoNodeProxy.Nodes, ¬ cookiePresent duplicateCookieRequest n) := by
  have hsid : (ResolveGo.ResolveNode twoNodeProxy duplicateCookieRequest).2 = "" := by
    decide
  have hpresent : cookiePresent duplicateCookieRequest busyNode :=
    ⟨{ Name := "cookieA", Value := "second" }, by decide, by decide, by decide⟩
  intro h
  exact h.1 hsid busyNode (by decide) hpresent

/-- C3, amended: `ResolveNode` of `resolve.go` returns an empty session id
exactly when, for no configured node, the first request cookie named after the
node has a non-empty value; in that case the node returned is `balance` over
all configured nodes; when some node matches in this sense, the session id is
the value alone of the first request cookie named after a matching node; and
for a request in which no two cookies share a name, the session id is empty
exactly when no configured node has its cookie present with a non-empty
value. -/
theorem ResolveGo.ResolveNode_sessionId_first_cookie (p : Proxy) (req : Request) :
    ((ResolveGo.ResolveNode p req).2 = "" ↔ ∀ n ∈ p.Nodes, ¬ firstCookieNonEmpty req n) ∧
    ((∀ n ∈ p.Nodes, ¬ firstCookieNonEmpty req n) →
      (ResolveGo.ResolveNode p req).1 = ResolveGo.balance p p.Nodes) ∧
    ((∃ n ∈ p.Nodes, firstCookieNonEmpty req n) →
      ∃ n ∈ p.Nodes, ∃ c, firstCookie req n.SessionCookieName c ∧ c.Value ≠ "" ∧
        (ResolveGo.ResolveNode p req).2 = c.Value) ∧
    ((req.Cookies.map (fun c => c.Name)).Nodup →
      ((ResolveGo.ResolveNode p req).2 = "" ↔ ∀ n ∈ p.Nodes, ¬ cookiePresent req n)) := by
  obtain ⟨hempty, hnone, hsome⟩ := ResolveGo.ResolveNode_sessionId_of_loop_test p req
  have hno : (∀ n ∈ p.Nodes, cookieMatches req n = false)
      ↔ ∀ n ∈ p.Nodes, ¬ firstCookieNonEmpty req n := by
    constructor
    · intro h n hn hfirst
      have := (cookieMatches_iff_firstCookieNonEmpty req n).2 hfirst
      rw [h n hn] at this
      exact absurd this (by decide)
    · intro h n hn
      cases hm : cookieMatches req n with
      | false => rfl
      | true => exact absurd ((cookieMatches_iff_firstCookieNonEmpty req n).1 hm) (h n hn)
  have hiff : (ResolveGo.ResolveNode p req).2 = ""
      ↔ ∀ n ∈ p.Nodes, ¬ firstCookieNonEmpty req n := hempty.trans hno
  refine ⟨hiff, fun h => hnone (hno.2 h), ?_, ?_⟩
  · rintro ⟨n, hn, hfirst⟩
    obtain ⟨m, hm, c, hmatch, hcookie, -, hvalue, hsid⟩ :=
      hsome ⟨n, hn, (cookieMatches_iff_firstCookieNonEmpty req n).2 hfirst⟩
    refine ⟨m, hm, c, ?_, hvalue, hsid⟩
    unfold Request.Cookie at hcookie
    obtain ⟨hc, pre, post, hsplit, hpre⟩ := List.find?_eq_some.1 hcookie
    exact ⟨pre, post, hsplit, fun d hd => by simpa using hpre d hd, by simpa using hc⟩
  · intro hnames
    rw [hiff]
    constructor
    · intro h n hn hpresent
      exact h n hn ((cookiePresent_iff_firstCookieNonEmpty req n hnames).1 hpresent)
    · intro h n hn hfirst
      exact h n hn ((cookiePresent_iff_firstCookieNonEmpty req n hnames).2 hfirst)

/-- The run of `Node.ServeHTTP`, whatever the dispatch does: open signal,
dispatch, close signal, and a normal return. -/
theorem Node.ServeHTTP_signals (n : Node) (env : Env) (req : Request) :
    (n.ServeHTTP env req).trace
      = [Event.openConn n.Id, Event.dispatch n.Id req, Event.closeConn n.Id] ∧
    (n.ServeHTTP env req).result = .ok () := by
  unfold Node.ServeHTTP
  cases (env.upstream n req).panicValue <;> simp [Node.closeConn]

/-- C7: `Node.ServeHTTP` sends one open signal, dispatches, and sends one close
signal, in that order and nothing else, whether the dispatch returns or
panics; it returns normally; the goroutine that owns the counter leaves
`openConnections` one above its start at the dispatch and at its start after
the call. -/
theorem Node.ServeHTTP_one_open_one_close (n : Node) (env : Env) (req : Request) :
    (n.ServeHTTP env req).trace
      = [Event.openConn n.Id, Event.dispatch n.Id req, Event.closeConn n.Id] ∧
    (n.ServeHTTP env req).result = .ok () ∧
    beforeDispatch (n.ServeHTTP env req).trace = [Event.openConn n.Id] ∧
    afterDispatch (n.ServeHTTP env req).trace = [Event.closeConn n.Id] ∧
    (n.after (beforeDispatch (n.ServeHTTP env req).trace)).openConnections
      = n.openConnections + 1 ∧
    (n.after (n.ServeHTTP env req).trace).openConnections = n.openConnections := by
  obtain ⟨htrace, hres⟩ := Node.ServeHTTP_signals n env req
  refine ⟨htrace, hres, ?_, ?_, ?_, ?_⟩
  · rw [htrace]; simp [beforeDispatch, List.takeWhile]
  · rw [htrace]; simp [afterDispatch, List.dropWhile]
  · rw [htrace]; simp [beforeDispatch, List.takeWhile, Node.after, NewNode.goroutine]
  · rw [htrace]; simp [Node.after, NewNode.goroutine]

/-- C8: `serveFromCache` panics with "Cache Item is empty!" exactly when the
item is nil or has no data, it has no other failure, a failing call has set no
header and written nothing, and a call that returns has handed the non-empty
data of the item to `http.ServeContent`. -/
theorem VariantproxyGo.serveFromCache_panics_iff_empty (env : Env) (cached : Option Item)
    (req : Request) :
    ((VariantproxyGo.serveFromCache env cached req).result = .error "Cache Item is empty!"
      ↔ (cached = none ∨ ∃ item, cached = some item ∧ item.Data.length = 0)) ∧
    (∀ v, (VariantproxyGo.serveFromCache env cached req).result = .error v →
      v = "Cache Item is empty!" ∧ (VariantproxyGo.serveFromCache env cached req).trace = []) ∧
    ((VariantproxyGo.serveFromCache env cached req).result = .ok () →
      ∃ item, cached = some item ∧ item.Data ≠ [] ∧
        Event.serveContent req.RequestURI item.Data
          ∈ (VariantproxyGo.serveFromCache env cached req).trace) := by
  cases cached with
  | none => simp [VariantproxyGo.serveFromCache]
  | some item =>
    by_cases hlen : item.Data.length = 0
    · have hnil : item.Data = [] := List.length_eq_zero.1 hlen
      simp [VariantproxyGo.serveFromCache, hnil]
    · have hne : item.Data ≠ [] := fun h => hlen (by rw [h]; rfl)
      simp [VariantproxyGo.serveFromCache, hlen, hne]

/-- C4: on the second request of a test client (`/foo`, not cacheable, cookie
`testCookie=sess-a-11`, no `Set-Cookie` in the response) `Serve` of
`variantproxy.go` returns `testCookiesess-a-11`, the cookie name followed by
the value, where the request carried the value `sess-a-11`. -/
theorem VariantproxyGo.Serve_returns_name_and_value :
    (VariantproxyGo.Serve testProxy testEnv testRequestFoo).result
      = .ok "testCookiesess-a-11" ∧
    VariantproxyGo.canBeCached testProxy testRequestFoo = false ∧
    testRequestFoo.Cookie "testCookie" = some { Name := "testCookie", Value := "sess-a-11" } ∧
    VariantproxyGo.snifferSessionId "testCookie"
      (testEnv.upstream testNodeA1 { testRequestFoo with Host := testNodeA1.Host }) = "" := by
  have hload : Float64.lt testNodeA2.Load testNodeA1.Load = false := Node.load_rest_not_lt
  have hfold : testProxy.Nodes.foldl (VariantproxyGo.resolveStep testRequestFoo) ([], "")
      = ([testNodeA1, testNodeA2], "testCookiesess-a-11") := by decide
  have hresolve : VariantproxyGo.ResolveNode testProxy testRequestFoo
      = .ok (some testNodeA1, "testCookiesess-a-11") := by
    simp only [VariantproxyGo.ResolveNode, hfold]
    simp [VariantproxyGo.balance, testProxy, balanceStep, hload]
  have hcache : VariantproxyGo.canBeCached testProxy
      { testRequestFoo with Host := testNodeA1.Host } = false := by decide
  have hsniff : VariantproxyGo.snifferSessionId "testCookie"
      (testEnv.upstream testNodeA1 { testRequestFoo with Host := testNodeA1.Host }) = "" := by
    decide
  refine ⟨?_, by decide, by decide, hsniff⟩
  have hpanic : (testEnv.upstream testNodeA1
      { testRequestFoo with Host := testNodeA1.Host }).panicValue = none := rfl
  have hname : testNodeA1.SessionCookieName = "testCookie" := rfl
  simp only [VariantproxyGo.Serve, hresolve, hcache, hpanic, hname, hsniff]
  simp

/-- C5: when the lookup misses and the populate lock is taken for a URI that
ends in `.js` or `.css`, and the backend answers with an empty body, a status
other than 304 and no gzip `Content-Encoding`, `serveFromCacheWithNode`
compresses the empty body before it tests the length; the gzip stream of no
data is not empty, so `cache.Save` is called with it and `cache.Cancel` is not
called. -/
theorem VariantproxyGo.serveFromCacheWithNode_saves_empty_script
    (p : Proxy) (env : Env) (req : Request) (node : Node)
    (hmiss : p.cache.Get (VariantproxyGo.createHashFromUri env req.RequestURI) = none)
    (hlock : p.cache.GetLock (VariantproxyGo.createHashFromUri env req.RequestURI) = true)
    (hjs : (stringsHasSuffix req.RequestURI ".js" || stringsHasSuffix req.RequestURI ".css")
      = true)
    (hbody : (env.upstream node
      { req with URLHost := node.Host, URLScheme := node.Scheme }).bytes = [])
    (hstatus : (env.upstream node
      { req with URLHost := node.Host, URLScheme := node.Scheme }).statusCode ≠ 304)
    (hencoding : stringsContains ((env.upstream node
      { req with URLHost := node.Host, URLScheme := node.Scheme }).Header.Get
        "Content-Encoding") "gzip" = false)
    (hgzip : env.gzip [] ≠ []) :
    Event.cacheSave (VariantproxyGo.createHashFromUri env req.RequestURI) req.RequestURI
        (env.gzip [])
        (env.upstream node { req with URLHost := node.Host, URLScheme := node.Scheme }).Header
      ∈ (VariantproxyGo.serveFromCacheWithNode p env req node).trace ∧
    Event.cacheCancel (VariantproxyGo.createHashFromUri env req.RequestURI)
      ∉ (VariantproxyGo.serveFromCacheWithNode p env req node).trace := by
  have hlen : (env.gzip []).length ≠ 0 := fun h => hgzip (List.length_eq_zero.1 h)
  obtain ⟨htrace, -⟩ := Node.ServeHTTP_signals node env
    { req with URLHost := node.Host, URLScheme := node.Scheme }
  simp only [Bool.or_eq_true] at hjs
  simp only [VariantproxyGo.serveFromCacheWithNode, hmiss, hlock, hbody,
    hencoding, htrace, VariantproxyGo.compress]
  simp [hlen, hjs, hstatus]

/-- C5, at a concrete input: `/app.js` against a backend that answers 200 with
an empty body; the item saved is the gzip framing alone. -/
theorem VariantproxyGo.serveFromCacheWithNode_saves_empty_script_witness :
    Event.cacheSave "/app.js" "/app.js"
        [31, 139, 8, 0, 0, 0, 0, 0, 0, 255, 0, 0, 0, 0, 0, 0, 0, 0] []
      ∈ (VariantproxyGo.serveFromCacheWithNode testProxy emptyBodyEnv scriptRequest
          testNodeA1).trace ∧
    Event.cacheCancel "/app.js"
      ∉ (VariantproxyGo.serveFromCacheWithNode testProxy emptyBodyEnv scriptRequest
          testNodeA1).trace :=
  VariantproxyGo.serveFromCacheWithNode_saves_empty_script testProxy emptyBodyEnv scriptRequest
    testNodeA1 rfl rfl (by decide) rfl (by decide) (by decide) (by decide)

/-- C6, as stated, fails: for `/style.css?v=1` the path `/style.css` ends in
`.css`, and `canBeCached` returns false. -/
theorem VariantproxyGo.canBeCached_ignores_path_of_query_request :
    ¬ (VariantproxyGo.canBeCached testProxy versionedCssRequest = true
        ↔ cacheablePattern (requestPath versionedCssRequest.RequestURI)) := by
  have hcode : VariantproxyGo.canBeCached testProxy versionedCssRequest = false := by decide
  have hpath : cacheablePattern (requestPath versionedCssRequest.RequestURI) := by
    have : requestPath versionedCssRequest.RequestURI = "/style.css" := by decide
    rw [this]
    right; right; right; left
    exact ⟨"/style".data, rfl⟩
  rw [hcode]
  intro h
  exact absurd (h.2 hpath) (by decide)

/-- C6, amended: `canBeCached` returns true exactly when `RequestURI`, the raw
request target with its query string, starts with `/images` or ends with one
of `.txt`, `.png`, `.css`, `.js`, `.jpg`, case-sensitively; for a request
without a query string that is the same condition on the path. -/
theorem VariantproxyGo.canBeCached_iff_requestURI_pattern (p : Proxy) (req : Request) :
    (VariantproxyGo.canBeCached p req = true ↔ cacheablePattern req.RequestURI) ∧
    ('?' ∉ req.RequestURI.data →
      (VariantproxyGo.canBeCached p req = true
        ↔ cacheablePattern (requestPath req.RequestURI))) := by
  have hmain : VariantproxyGo.canBeCached p req = true ↔ cacheablePattern req.RequestURI := by
    unfold VariantproxyGo.canBeCached cacheablePattern stringsHasPrefix stringsHasSuffix
    rw [← List.isPrefixOf_iff_prefix]
    simp only [← List.isSuffixOf_iff_suffix]
    by_cases h1 : "/images".data.isPrefixOf req.RequestURI.data = true
    · simp [h1]
    by_cases h2 : ".txt".data.isSuffixOf req.RequestURI.data = true
    · simp [h2]
    by_cases h3 : ".png".data.isSuffixOf req.RequestURI.data = true
    · simp [h3]
    by_cases h4 : ".css".data.isSuffixOf req.RequestURI.data = true
    · simp [h4]
    by_cases h5 : ".js".data.isSuffixOf req.RequestURI.data = true
    · simp [h5]
    by_cases h6 : ".jpg".data.isSuffixOf req.RequestURI.data = true
    · simp [h6]
    simp [h1, h2, h3, h4, h5, h6]
  refine ⟨hmain, ?_⟩
  intro hq
  have hpath : requestPath req.RequestURI = req.RequestURI := by
    unfold requestPath
    have : req.RequestURI.data.takeWhile (fun c => c != '?') = req.RequestURI.data := by
      rw [List.takeWhile_eq_self_iff]
      intro c hc
      have : c ≠ '?' := fun h => hq (h ▸ hc)
      simpa using this
    rw [this]
  rw [hpath]
  exact hmain

/-- C10: on the first request of a test client (`/`, not cacheable) the only
effect of `Serve` is the dispatch to the reverse proxy of the chosen node: no
open or close signal is sent, and the load of the node at the dispatch is its
load before the request. The cacheable path of the same proxy goes through
`Node.ServeHTTP`, which does send the signals. -/
theorem VariantproxyGo.Serve_live_path_skips_accounting :
    VariantproxyGo.canBeCached testProxy testRequestRoot = false ∧
    (VariantproxyGo.Serve testProxy testEnv testRequestRoot).trace
      = [Event.dispatch "a-1" { testRequestRoot with Host := testNodeA1.Host }] ∧
    (VariantproxyGo.Serve testProxy testEnv testRequestRoot).result = .ok "sess-a-11" ∧
    Event.openConn "a-1" ∉ (VariantproxyGo.Serve testProxy testEnv testRequestRoot).trace ∧
    (testNodeA1.after (beforeDispatch
      (VariantproxyGo.Serve testProxy testEnv testRequestRoot).trace)).Load
      = testNodeA1.Load ∧
    Event.openConn "a-1" ∈ (VariantproxyGo.Serve testProxy testEnv scriptRequest).trace := by
  have hload : Float64.lt testNodeA2.Load testNodeA1.Load = false := Node.load_rest_not_lt
  have hresolve : ∀ req : Request, req.Cookies = [] →
      VariantproxyGo.ResolveNode testProxy req = .ok (some testNodeA1, "") := by
    intro req hreq
    have hfold : testProxy.Nodes.foldl (VariantproxyGo.resolveStep req) ([], "")
        = ([], "") := by
      simp [testProxy, VariantproxyGo.resolveStep, Request.Cookie, hreq]
    simp only [VariantproxyGo.ResolveNode, hfold]
    simp [VariantproxyGo.balance, testProxy, balanceStep, hload]
  have hcache : VariantproxyGo.canBeCached testProxy
      { testRequestRoot with Host := testNodeA1.Host } = false := by decide
  have hsniff : VariantproxyGo.snifferSessionId "testCookie"
      (testEnv.upstream testNodeA1 { testRequestRoot with Host := testNodeA1.Host })
      = "sess-a-11" := by decide
  have hpanic : (testEnv.upstream testNodeA1
      { testRequestRoot with Host := testNodeA1.Host }).panicValue = none := rfl
  have hname : testNodeA1.SessionCookieName = "testCookie" := rfl
  have hid : testNodeA1.Id = "a-1" := rfl
  have hrun : VariantproxyGo.Serve testProxy testEnv testRequestRoot
      = ⟨[Event.dispatch "a-1" { testRequestRoot with Host := testNodeA1.Host }],
          .ok "sess-a-11"⟩ := by
    have hlen : "sess-a-11".length > 0 := by decide
    simp only [VariantproxyGo.Serve, hresolve testRequestRoot rfl, hcache, hpanic, hname,
      hsniff, hid, hlen]
    simp
  have hjs : VariantproxyGo.canBeCached testProxy
      { scriptRequest with Host := testNodeA1.Host } = true := by decide
  refine ⟨by decide, by rw [hrun], by rw [hrun], by rw [hrun]; simp, ?_, ?_⟩
  · rw [hrun]
    simp [beforeDispatch, List.takeWhile, Node.after]
  · have hopen : ∀ r : Request, Event.openConn "a-1" ∈ (testNodeA1.ServeHTTP testEnv r).trace := by
      intro r
      rw [(Node.ServeHTTP_signals testNodeA1 testEnv r).1, hid]
      exact List.mem_cons_self _ _
    have hok : ∀ r : Request, (testNodeA1.ServeHTTP testEnv r).result = .ok () :=
      fun r => (Node.ServeHTTP_signals testNodeA1 testEnv r).2
    simp only [VariantproxyGo.Serve, hresolve scriptRequest rfl, hjs]
    simp [VariantproxyGo.serveFromCacheWithNode, testProxy, emptyCache, hopen, hok]

/-- A selected variant is one of the configured variants. -/
theorem GetBalancedRandomVariant_mem (variants : List Variant) :
    ∀ (draw : Nat) (v : Variant), GetBalancedRandomVariant variants draw = some v → v ∈ variants := by
  induction variants with
  | nil => intro draw v h; simp [GetBalancedRandomVariant] at h
  | cons w rest ih =>
    intro draw v h
    unfold GetBalancedRandomVariant at h
    by_cases hlt : draw < w.Share
    · simp [hlt] at h; subst h; exact List.mem_cons_self _ _
    · simp [hlt] at h; exact List.mem_cons_of_mem _ (ih _ _ h)

/-- Every draw below the sum of the shares selects a variant. -/
theorem GetBalancedRandomVariant_some (variants : List Variant) :
    ∀ draw, draw < totalShare variants → ∃ v, GetBalancedRandomVariant variants draw = some v := by
  induction variants with
  | nil => intro draw h; simp [totalShare] at h
  | cons w rest ih =>
    intro draw h
    unfold GetBalancedRandomVariant
    by_cases hlt : draw < w.Share
    · exact ⟨w, by simp [hlt]⟩
    · have : draw - w.Share < totalShare rest := by
        simp [totalShare] at h ⊢; omega
      obtain ⟨v, hv⟩ := ih _ this
      exact ⟨v, by simp [hlt, hv]⟩

/-- The draws below `w.Share` select the head `w`; the others are the draws of
the tail, shifted by `w.Share`. -/
theorem GetBalancedRandomVariant_count_cons (w : Variant) (rest : List Variant) (v : Variant) (n : Nat) :
    (List.range (w.Share + n)).countP (fun draw => GetBalancedRandomVariant (w :: rest) draw = some v)
      = (if w = v then w.Share else 0)
        + (List.range n).countP (fun draw => GetBalancedRandomVariant rest draw = some v) := by
  rw [List.range_add, List.countP_append, List.countP_map]
  congr 1
  · by_cases hwv : w = v
    · subst hwv
      rw [if_pos rfl]
      have : (List.range w.Share).countP (fun draw => GetBalancedRandomVariant (w :: rest) draw = some w)
          = (List.range w.Share).length := by
        rw [List.countP_eq_length]
        intro d hd
        have : d < w.Share := List.mem_range.1 hd
        simp [GetBalancedRandomVariant, this]
      rw [this, List.length_range]
    · rw [if_neg hwv, List.countP_eq_zero]
      intro d hd
      have : d < w.Share := List.mem_range.1 hd
      simp [GetBalancedRandomVariant, this, hwv]
  · apply List.countP_congr
    intro d _
    simp [GetBalancedRandomVariant]

/-- Among distinct variants, each is selected on as many draws as its share. -/
theorem drawsSelecting_eq_share (variants : List Variant) :
    variants.Nodup → ∀ v ∈ variants, drawsSelecting variants v = v.Share := by
  induction variants with
  | nil => intro _ v hv; simp at hv
  | cons w rest ih =>
    intro hnd v hv
    have hnd2 := List.nodup_cons.1 hnd
    unfold drawsSelecting
    have htot : totalShare (w :: rest) = w.Share + totalShare rest := by simp [totalShare]
    rw [htot, GetBalancedRandomVariant_count_cons]
    by_cases hwv : w = v
    · subst hwv
      rw [if_pos rfl]
      have : (List.range (totalShare rest)).countP
          (fun draw => GetBalancedRandomVariant rest draw = some w) = 0 := by
        rw [List.countP_eq_zero]
        intro d _ hd
        have := GetBalancedRandomVariant_mem rest d w (by simpa using hd)
        exact hnd2.1 this
      rw [this]; rfl
    · rw [if_neg hwv]
      have hmem : v ∈ rest := by
        rcases List.mem_cons.1 hv with h | h
        · exact absurd h.symm hwv
        · exact h
      have := ih hnd2.2 v hmem
      unfold drawsSelecting at this
      rw [this]; simp

/-- C9: for variants with positive shares and distinct ids, every draw selects
one of the configured variants, and the fraction of the `Σ shares` equally
likely draws that select a variant is its share divided by the sum of all
shares. -/
theorem GetBalancedRandomVariant_fraction_is_share (variants : List Variant)
    (hne : variants ≠ [])
    (hpos : ∀ v ∈ variants, 0 < v.Share)
    (hids : (variants.map (fun v => v.Id)).Nodup) :
    0 < totalShare variants ∧
    (∀ draw, draw < totalShare variants →
      ∃ v ∈ variants, GetBalancedRandomVariant variants draw = some v) ∧
    (∀ v ∈ variants,
      (drawsSelecting variants v : ℚ) / (totalShare variants : ℚ)
        = (v.Share : ℚ) / (totalShare variants : ℚ)) := by
  refine ⟨?_, ?_, ?_⟩
  · cases variants with
    | nil => exact absurd rfl hne
    | cons w rest =>
      have := hpos w (List.mem_cons_self _ _)
      simp [totalShare]
      omega
  · intro draw hdraw
    obtain ⟨v, hv⟩ := GetBalancedRandomVariant_some variants draw hdraw
    exact ⟨v, GetBalancedRandomVariant_mem variants draw v hv, hv⟩
  · intro v hv
    rw [drawsSelecting_eq_share variants (List.Nodup.of_map _ hids) v hv]

/-- C9, at the shares of the test: with shares 90 and 10 the fractions are 9/10
and 1/10. -/
theorem GetBalancedRandomVariant_fraction_is_share_witness :
    (testVariants ≠ [] ∧ (∀ v ∈ testVariants, 0 < v.Share) ∧
      (testVariants.map (fun v => v.Id)).Nodup) ∧
    (drawsSelecting testVariants { Id := "A", Share := 90 } : ℚ)
      / (totalShare testVariants : ℚ) = 9 / 10 ∧
    (drawsSelecting testVariants { Id := "B", Share := 10 } : ℚ)
      / (totalShare testVariants : ℚ) = 1 / 10 := by
  have hne : testVariants ≠ [] := by decide
  have hpos : ∀ v ∈ testVariants, 0 < v.Share := by decide
  have hids : (testVariants.map (fun v => v.Id)).Nodup := by decide
  have htotal : totalShare testVariants = 100 := by decide
  obtain ⟨-, -, hfrac⟩ := GetBalancedRandomVariant_fraction_is_share testVariants hne hpos hids
  refine ⟨⟨hne, hpos, hids⟩, ?_, ?_⟩
  · rw [hfrac _ (by decide), htotal]; norm_num
  · rw [hfrac _ (by decide), htotal]; norm_num

/-- The scan of `balance` ends on its start or on a node it has visited. -/
theorem ResolveGo.scan_mem (rest : List Node) :
    ∀ m : Node, rest.foldl balanceStep m ∈ m :: rest := by
  induction rest with
  | nil => intro m; simp
  | cons x rest ih =>
    intro m
    simp only [List.foldl_cons]
    have h := ih (balanceStep m x)
    unfold balanceStep at h ⊢
    split_ifs at h ⊢ with hlt
    · exact List.mem_cons_of_mem _ h
    · rcases List.mem_cons.1 h with h | h
      · rw [h]; exact List.mem_cons_self _ _
      · exact List.mem_cons_of_mem _ (List.mem_cons_of_mem _ h)

/-- The node `balance` of `resolve.go` returns is one of the nodes it is given. -/
theorem ResolveGo.balance_mem (p : Proxy) (nodes : List Node) (r : Node)
    (h : ResolveGo.balance p nodes = some r) : r ∈ nodes := by
  cases nodes with
  | nil => simp [ResolveGo.balance] at h
  | cons first rest =>
    simp only [ResolveGo.balance, Option.some.injEq] at h
    rw [← h]
    exact ResolveGo.scan_mem rest first

/-- The sibling of C2: when some configured node matches, `ResolveNode` of
`resolve.go` returns a configured node that matches. -/
theorem ResolveGo.ResolveNode_returns_matching_node (p : Proxy) (req : Request)
    (hmatch : ∃ n ∈ p.Nodes, cookieMatches req n = true) :
    ∃ n, (ResolveGo.ResolveNode p req).1 = some n ∧ n ∈ p.Nodes ∧
      cookieMatches req n = true := by
  obtain ⟨h1, -, -⟩ := ResolveGo.resolve_fold req p.Nodes ([], "")
  simp only [List.nil_append] at h1
  obtain ⟨m, hm, hmm⟩ := hmatch
  have hmem : m ∈ p.Nodes.filter (cookieMatches req) := List.mem_filter.2 ⟨hm, hmm⟩
  have hlen : (p.Nodes.filter (cookieMatches req)).length ≠ 0 := by
    intro h0
    rw [List.length_eq_zero.1 h0] at hmem
    simp at hmem
  have hres : (ResolveGo.ResolveNode p req).1
      = ResolveGo.balance p (p.Nodes.filter (cookieMatches req)) := by
    simp only [ResolveGo.ResolveNode, h1, if_neg hlen]
  cases hb : ResolveGo.balance p (p.Nodes.filter (cookieMatches req)) with
  | none =>
    cases hf : p.Nodes.filter (cookieMatches req) with
    | nil => rw [hf] at hmem; simp at hmem
    | cons a l => rw [hf] at hb; simp [ResolveGo.balance] at hb
  | some n =>
    have hn := ResolveGo.balance_mem p _ n hb
    obtain ⟨hn1, hn2⟩ := List.mem_filter.1 hn
    exact ⟨n, by rw [hres, hb], hn1, hn2⟩

/-- What `Serve` of `variantproxy.go` returns once `ResolveNode` has chosen a
node: on the live path the sniffed session id when it is not empty and the
session id of `ResolveNode` otherwise, after the single effect of the dispatch;
on the cacheable path the session id of `ResolveNode`. -/
theorem VariantproxyGo.Serve_result (p : Proxy) (env : Env) (req : Request) (node : Node)
    (sessionId : String)
    (hresolve : VariantproxyGo.ResolveNode p req = .ok (some node, sessionId)) :
    (VariantproxyGo.canBeCached p { req with Host := node.Host } = false →
      (env.upstream node { req with Host := node.Host }).panicValue = none →
      VariantproxyGo.Serve p env req =
        ⟨[Event.dispatch node.Id { req with Host := node.Host }],
          .ok (if (VariantproxyGo.snifferSessionId node.SessionCookieName
                (env.upstream node { req with Host := node.Host })).length > 0
              then VariantproxyGo.snifferSessionId node.SessionCookieName
                (env.upstream node { req with Host := node.Host })
              else sessionId)⟩) ∧
    (VariantproxyGo.canBeCached p { req with Host := node.Host } = true →
      (VariantproxyGo.serveFromCacheWithNode p env { req with Host := node.Host } node).result
        = .ok () →
      (VariantproxyGo.Serve p env req).result = .ok sessionId) := by
  constructor
  · intro hlive hret
    simp only [VariantproxyGo.Serve, hresolve, hlive, hret]
    by_cases hs : (VariantproxyGo.snifferSessionId node.SessionCookieName
        (env.upstream node { req with Host := node.Host })).length > 0
    · simp [hs]
    · simp [hs]
  · intro hcached hok
    simp only [VariantproxyGo.Serve, hresolve, hcached, hok]
    simp

/-- What the populate branch of `serveFromCacheWithNode` does with the cache
when the body it tests is the upstream body (no compression applies): status
304 or an empty body cancels and saves nothing; otherwise the body is saved. -/
theorem VariantproxyGo.serveFromCacheWithNode_uncompressed (p : Proxy) (env : Env)
    (req : Request) (node : Node)
    (hmiss : p.cache.Get (VariantproxyGo.createHashFromUri env req.RequestURI) = none)
    (hlock : p.cache.GetLock (VariantproxyGo.createHashFromUri env req.RequestURI) = true)
    (hplain : ((stringsHasSuffix req.RequestURI ".js" || stringsHasSuffix req.RequestURI ".css")
      && !stringsContains ((env.upstream node
        { req with URLHost := node.Host, URLScheme := node.Scheme }).Header.Get
          "Content-Encoding") "gzip") = false) :
    (VariantproxyGo.serveFromCacheWithNode p env req node).trace
      = [Event.cacheGet (VariantproxyGo.createHashFromUri env req.RequestURI),
         Event.cacheGetLock (VariantproxyGo.createHashFromUri env req.RequestURI),
         Event.openConn node.Id,
         Event.dispatch node.Id { req with URLHost := node.Host, URLScheme := node.Scheme },
         Event.closeConn node.Id,
         (if (env.upstream node
              { req with URLHost := node.Host, URLScheme := node.Scheme }).statusCode = 304 ∨
             (env.upstream node
              { req with URLHost := node.Host, URLScheme := node.Scheme }).bytes = []
          then Event.cacheCancel (VariantproxyGo.createHashFromUri env req.RequestURI)
          else Event.cacheSave (VariantproxyGo.createHashFromUri env req.RequestURI)
            req.RequestURI
            (env.upstream node
              { req with URLHost := node.Host, URLScheme := node.Scheme }).bytes
            (env.upstream node
              { req with URLHost := node.Host, URLScheme := node.Scheme }).Header),
         Event.copy (env.upstream node
              { req with URLHost := node.Host, URLScheme := node.Scheme }).bytes] := by
  obtain ⟨htrace, -⟩ := Node.ServeHTTP_signals node env
    { req with URLHost := node.Host, URLScheme := node.Scheme }
  simp only [VariantproxyGo.serveFromCacheWithNode, hmiss, hlock, htrace]
  rw [hplain]
  by_cases h304 : (env.upstream node
      { req with URLHost := node.Host, URLScheme := node.Scheme }).statusCode = 304
  · simp [h304]
  · by_cases hb : (env.upstream node
        { req with URLHost := node.Host, URLScheme := node.Scheme }).bytes = []
    · simp [h304, hb]
    · simp [h304, hb]

end VariantBalancer
